import Mathlib

/-!
Verification development for the NearEarthObjects repository.

The Python sources `models.py` and `database.py` are shallowly embedded:
Python floats become `PyFloat` (a rational or a not-a-number sentinel),
Python dicts become association lists in which a later assignment is
prepended and lookup returns the first match (last write wins), object
references from close approaches to NEOs become indices into the database's
NEO list, and fallible operations (KeyError from dict subscription,
IndexError from tuple subscription) become `Except String` results.

The `filters` module and the `helpers` time-conversion module are imported
by `database.py`/`models.py` but are not part of the sources; the filter
predicate classes and the time conversion are modelled from the spec, as
marked in their doc comments.
-/

set_option autoImplicit false

namespace NeoDb

/-- A Python float as used by this program: either a rational value or the
not-a-number sentinel produced by `float('nan')`. -/
inductive PyFloat where
  | nan : PyFloat
  | val : ℚ → PyFloat
deriving DecidableEq, Repr

/-- IEEE-style non-strict comparison: any comparison involving NaN is false. -/
def PyFloat.le : PyFloat → PyFloat → Bool
  | PyFloat.val a, PyFloat.val b => decide (a ≤ b)
  | _, _ => false

/-- A `CloseApproach` record (`models.py`).  `designation`, `time`,
`distance`, `velocity` and `neo` are set by the constructor; `name`,
`diameter` and `hazardous` are the denormalized attributes assigned by the
`NEODatabase` constructor (`database.py` lines 44-46).  The `neo` reference
is modelled as an index into the database's NEO list (`none` before
linking, matching Python's `None`). -/
structure CloseApproach where
  designation : String
  time : Int
  distance : PyFloat
  velocity : PyFloat
  neo : Option Nat
  name : Option String
  diameter : PyFloat
  hazardous : Bool
deriving DecidableEq, Repr

/-- A `NearEarthObject` record (`models.py`).  `approaches` is the back-link
collection populated by the `NEODatabase` constructor (`database.py` line 50). -/
structure NearEarthObject where
  designation : String
  name : Option String
  diameter : PyFloat
  hazardous : Bool
  approaches : List CloseApproach
deriving DecidableEq, Repr

/-- Diameter input to the `NearEarthObject` constructor: the empty string
(normalized to NaN at line 37 of `models.py`) or an already-numeric value. -/
inductive DiamIn where
  | emptyStr : DiamIn
  | flt : PyFloat → DiamIn
deriving DecidableEq, Repr

/-- Hazard-flag input to the `NearEarthObject` constructor: a string (for the
'Y'/'N' categorical encoding) or a boolean. -/
inductive HazIn where
  | str : String → HazIn
  | bool : Bool → HazIn
deriving DecidableEq, Repr

/-- `NearEarthObject.__init__` (`models.py` lines 24-51): empty-string name
becomes `None`; empty-string diameter becomes NaN; hazard flag 'Y'/'N'
becomes a boolean, any other value goes through Python's `bool` coercion
(a string is truthy iff non-empty); the designation is already a string so
`str` is the identity; `approaches` starts empty. -/
def mkNearEarthObject (designation : String) (name : Option String)
    (diameter : DiamIn) (hazardous : HazIn) : NearEarthObject :=
  let name1 : Option String := if name = some "" then none else name
  let diameter1 : PyFloat :=
    match diameter with
    | DiamIn.emptyStr => PyFloat.nan
    | DiamIn.flt f => f
  let hazardous1 : Bool :=
    match hazardous with
    | HazIn.str s => if s = "Y" then true else if s = "N" then false else decide (s ≠ "")
    | HazIn.bool b => b
  { designation := designation, name := name1, diameter := diameter1,
    hazardous := hazardous1, approaches := [] }

/-- Modelled from the spec: `cd_to_datetime` lives in the external `helpers`
module (not part of the sources).  The spec (§6) describes it as a pure
conversion from a wire-format time value to an internal UTC temporal value;
it is modelled as the identity on an abstract temporal value. -/
def cd_to_datetime (t : Int) : Int := t

/-- `CloseApproach.__init__` (`models.py` lines 93-108): sets designation,
converted time, distance, velocity, and `neo := None`.  The Python
constructor does not create the `name`/`diameter`/`hazardous` attributes;
they are given inert placeholder values here, which the database
constructor overwrites unconditionally before they are ever read. -/
def mkCloseApproach (designation : String) (cd_time : Int)
    (distance : PyFloat) (velocity : PyFloat) : CloseApproach :=
  { designation := designation, time := cd_to_datetime cd_time,
    distance := distance, velocity := velocity,
    neo := none, name := none, diameter := PyFloat.nan, hazardous := false }

/-- Python dict lookup `dic.get(k)` on the association-list model: the first
entry wins, and entries are prepended at assignment, so the last assignment
wins, exactly as for a Python dict. -/
def dictGet {κ : Type} [DecidableEq κ] (dic : List (κ × Nat)) (k : κ) : Option Nat :=
  (dic.find? (fun p => decide (p.1 = k))).map (fun p => p.2)

/-- The loop `for neo in self._neos: self.neo_des_dic[neo.designation] = neo`
(`database.py` lines 31-33), carrying the running index of the iterated NEO;
each assignment prepends an entry to the association list. -/
def buildDesDicAux : Nat → List NearEarthObject → List (String × Nat) → List (String × Nat)
  | _, [], acc => acc
  | i, neo :: rest, acc => buildDesDicAux (i + 1) rest ((neo.designation, i) :: acc)

/-- The designation index `self.neo_des_dic`. -/
def buildDesDic (neos : List NearEarthObject) : List (String × Nat) :=
  buildDesDicAux 0 neos []

/-- The loop at `database.py` lines 36-39, including its guard exactly as
written in the source: `if neo.name != None or neo.name != ''`. -/
def buildNamDicAux : Nat → List NearEarthObject → List (Option String × Nat) → List (Option String × Nat)
  | _, [], acc => acc
  | i, neo :: rest, acc =>
    buildNamDicAux (i + 1) rest
      (if neo.name ≠ none ∨ neo.name ≠ some "" then (neo.name, i) :: acc else acc)

/-- The name index `self.neo_nam_dic`. -/
def buildNamDic (neos : List NearEarthObject) : List (Option String × Nat) :=
  buildNamDicAux 0 neos []

/-- The linking step at `database.py` lines 42-46:
`approach.neo = self.neo_des_dic[approach.designation]` (a missing key
raises `KeyError`), then the three denormalized attributes are copied from
the resolved NEO. -/
def linkApproach (neos : List NearEarthObject) (dic : List (String × Nat))
    (ca : CloseApproach) : Except String CloseApproach :=
  match dictGet dic ca.designation with
  | Option.none => Except.error "KeyError"
  | Option.some i =>
    match neos.get? i with
    | Option.none => Except.error "KeyError"
    | Option.some neo =>
      Except.ok { ca with neo := some i, name := neo.name,
                          diameter := neo.diameter, hazardous := neo.hazardous }

/-- Monadic map over `Except`, written by explicit recursion: the first
failure aborts, which models the `for approach in self._approaches` loop
raising out of the constructor. -/
def mapME {α β : Type} (f : α → Except String β) : List α → Except String (List β)
  | [] => Except.ok []
  | x :: xs =>
    match f x with
    | Except.error e => Except.error e
    | Except.ok y =>
      match mapME f xs with
      | Except.error e => Except.error e
      | Except.ok ys => Except.ok (y :: ys)

/-- The post-construction state of a `NEODatabase`: the (mutated) NEO and
approach collections plus the two indices. -/
structure NEODatabase where
  neos : List NearEarthObject
  approaches : List CloseApproach
  neo_des_dic : List (String × Nat)
  neo_nam_dic : List (Option String × Nat)
deriving DecidableEq, Repr

/-- The assignment `neo.approaches = [ca for ca in self._approaches if
ca.designation == neo.designation]` (`database.py` line 50), applied to one
NEO with the linked approach collection. -/
def withApproaches (linked : List CloseApproach) (neo : NearEarthObject) : NearEarthObject :=
  { neo with approaches :=
      linked.filter (fun ca => decide (ca.designation = neo.designation)) }

/-- `NEODatabase.__init__` (`database.py` lines 25-50): build both indices,
link every approach (fatally on an unresolvable designation), then set each
NEO's `approaches` to the matching subsequence of the (linked) approach
collection. -/
def mkNEODatabase (neos : List NearEarthObject) (cas : List CloseApproach) :
    Except String NEODatabase :=
  match mapME (linkApproach neos (buildDesDic neos)) cas with
  | Except.error e => Except.error e
  | Except.ok linked =>
    Except.ok {
      neos := neos.map (withApproaches linked),
      approaches := linked,
      neo_des_dic := buildDesDic neos,
      neo_nam_dic := buildNamDic neos }

/-- `NEODatabase.get_neo_by_designation` (`database.py` line 66):
`self.neo_des_dic.get(designation)`, dereferencing the stored index into the
database's NEO list. -/
def getNeoByDesignation (db : NEODatabase) (designation : String) : Option NearEarthObject :=
  (dictGet db.neo_des_dic designation).bind (fun i => db.neos.get? i)

/-- Python dict lookup over the name index, whose keys may be `None`. -/
def dictGetN (dic : List (Option String × Nat)) (k : Option String) : Option Nat :=
  (dic.find? (fun p => decide (p.1 = k))).map (fun p => p.2)

/-- `NEODatabase.get_neo_by_name` (`database.py` lines 82-85): a membership
test on the keys followed by `dict.get`, which together are a plain lookup. -/
def getNeoByName (db : NEODatabase) (name : Option String) : Option NearEarthObject :=
  (dictGetN db.neo_nam_dic name).bind (fun i => db.neos.get? i)

/-- A value occurring in a filter-specification tuple: a date, a number, a
boolean, or Python's `None` for an open bound. -/
inductive FVal where
  | none : FVal
  | date : Int → FVal
  | num : PyFloat → FVal
  | bool : Bool → FVal
deriving DecidableEq, Repr

/-- Modelled from the spec: `filters.DateFilter` lives in the `filters`
module, which is not part of the sources.  Per §4.3 and §6 the date filter
is a two-bound window over the approach's date (an unset bound is
unconstrained on that side), both bounds inclusive. -/
def DateFilter (v0 v1 : FVal) (ca : CloseApproach) : Bool :=
  (match v0 with
   | FVal.date d => decide (d ≤ ca.time)
   | _ => true) &&
  (match v1 with
   | FVal.date d => decide (ca.time ≤ d)
   | _ => true)

/-- Modelled from the spec: `filters.DistanceFilter` is the inclusive
two-bound comparator over the approach's distance (§4.3). -/
def DistanceFilter (v0 v1 : FVal) (ca : CloseApproach) : Bool :=
  (match v0 with
   | FVal.num f => PyFloat.le f ca.distance
   | _ => true) &&
  (match v1 with
   | FVal.num f => PyFloat.le ca.distance f
   | _ => true)

/-- Modelled from the spec: `filters.VelocityFilter` is the inclusive
two-bound comparator over the approach's velocity (§4.3). -/
def VelocityFilter (v0 v1 : FVal) (ca : CloseApproach) : Bool :=
  (match v0 with
   | FVal.num f => PyFloat.le f ca.velocity
   | _ => true) &&
  (match v1 with
   | FVal.num f => PyFloat.le ca.velocity f
   | _ => true)

/-- Modelled from the spec: `filters.DiameterFilter` is the inclusive
two-bound comparator over the approach's denormalized diameter (§4.3, §6). -/
def DiameterFilter (v0 v1 : FVal) (ca : CloseApproach) : Bool :=
  (match v0 with
   | FVal.num f => PyFloat.le f ca.diameter
   | _ => true) &&
  (match v1 with
   | FVal.num f => PyFloat.le ca.diameter f
   | _ => true)

/-- Modelled from the spec: `filters.HazardousFilter` "evaluates equality
against a boolean expectation" (§4.3); the expectation is the first slot of
the value tuple per the §6 table, the second slot being unused. -/
def HazardousFilter (v0 _v1 : FVal) (ca : CloseApproach) : Bool :=
  decide (v0 = FVal.bool ca.hazardous)

/-- `'k' in filters.keys()` combined with `filters['k']`: lookup of a key in
the caller's filter mapping. -/
def fget (fs : List (String × List FVal)) (k : String) : Option (List FVal) :=
  (fs.find? (fun p => decide (p.1 = k))).map (fun p => p.2)

/-- One `if 'k' in filters.keys(): filter_results.append(F(filters['k'][0],
filters['k'][1])(approach))` block of `NEODatabase.query` (`database.py`
lines 106-133).  Subscription of a too-short tuple raises `IndexError`,
exactly as Python's evaluation of the arguments does before the filter
object is even constructed. -/
def evalKey (fs : List (String × List FVal)) (k : String)
    (f : FVal → FVal → CloseApproach → Bool) (ca : CloseApproach)
    (acc : List Bool) : Except String (List Bool) :=
  match fget fs k with
  | Option.none => Except.ok acc
  | Option.some vs =>
    match vs.get? 0 with
    | Option.none => Except.error "IndexError"
    | Option.some v0 =>
      match vs.get? 1 with
      | Option.none => Except.error "IndexError"
      | Option.some v1 => Except.ok (acc ++ [f v0 v1 ca])

/-- The per-approach body of `NEODatabase.query` (`database.py` lines
103-133): the `filter_results` list accumulated over the ten recognized
keys in source order. -/
def filterResults (fs : List (String × List FVal)) (ca : CloseApproach) :
    Except String (List Bool) :=
  Except.bind (evalKey fs "date" DateFilter ca []) (fun r1 =>
  Except.bind (evalKey fs "start_date" DateFilter ca r1) (fun r2 =>
  Except.bind (evalKey fs "end_date" DateFilter ca r2) (fun r3 =>
  Except.bind (evalKey fs "distance_min" DistanceFilter ca r3) (fun r4 =>
  Except.bind (evalKey fs "distance_max" DistanceFilter ca r4) (fun r5 =>
  Except.bind (evalKey fs "velocity_min" VelocityFilter ca r5) (fun r6 =>
  Except.bind (evalKey fs "velocity_max" VelocityFilter ca r6) (fun r7 =>
  Except.bind (evalKey fs "diameter_min" DiameterFilter ca r7) (fun r8 =>
  Except.bind (evalKey fs "diameter_max" DiameterFilter ca r8) (fun r9 =>
  Except.bind (evalKey fs "hazardous" HazardousFilter ca r9) (fun r10 =>
  Except.ok r10))))))))))

/-- `NEODatabase.query` (`database.py` lines 88-136), with the generator
fully consumed: scan the approaches in order, keep an approach iff
`all(filter_results)`; an exception raised while processing any approach
aborts the whole consumption. -/
def query (fs : List (String × List FVal)) : List CloseApproach → Except String (List CloseApproach)
  | [] => Except.ok []
  | ca :: rest =>
    match filterResults fs ca with
    | Except.error e => Except.error e
    | Except.ok rs =>
      match query fs rest with
      | Except.error e => Except.error e
      | Except.ok tail => Except.ok (if rs.all (fun b => b) then ca :: tail else tail)

/-- `db.query(filters)` consumed into a list: the scan runs over
`self._approaches`. -/
def queryDB (db : NEODatabase) (fs : List (String × List FVal)) :
    Except String (List CloseApproach) :=
  query fs db.approaches

/-- The ten filter keys recognized by `NEODatabase.query`. -/
def recognizedKeys : List String :=
  ["date", "start_date", "end_date", "distance_min", "distance_max",
   "velocity_min", "velocity_max", "diameter_min", "diameter_max", "hazardous"]

/-- The restriction of a filter mapping to the recognized keys. -/
def restrictFilters (fs : List (String × List FVal)) : List (String × List FVal) :=
  fs.filter (fun p => decide (p.1 ∈ recognizedKeys))

/-- Decidable check of the linking invariant for one approach: the `neo`
reference is non-null, it resolves in the database's NEO list, and the
approach's designation and denormalized fields agree with that NEO. -/
def approachLinkedChk (db : NEODatabase) (ca : CloseApproach) : Bool :=
  match ca.neo with
  | Option.none => false
  | Option.some i =>
    match db.neos.get? i with
    | Option.none => false
    | Option.some neo =>
      decide (ca.designation = neo.designation) && decide (ca.name = neo.name) &&
      decide (ca.diameter = neo.diameter) && decide (ca.hazardous = neo.hazardous)

/-- The constructor-visible core of a close approach: the fields set by
`CloseApproach.__init__`, which the database's linking pass never changes. -/
def caCore (ca : CloseApproach) : String × Int × PyFloat × PyFloat :=
  (ca.designation, ca.time, ca.distance, ca.velocity)

/-- Whether a fallible construction completed without raising. -/
def exceptIsOk (e : Except String NEODatabase) : Bool :=
  match e with
  | Except.ok _ => true
  | Except.error _ => false

/-- NEO A of the §8 scenario: designation "2000 AB", name "Apophis",
diameter 0.5, hazardous. -/
def neoA : NearEarthObject :=
  mkNearEarthObject "2000 AB" (some "Apophis") (DiamIn.flt (PyFloat.val (1 / 2))) (HazIn.bool true)

/-- NEO B of the §8 scenario: designation "2001 XY", no name, unknown
diameter, not hazardous. -/
def neoB : NearEarthObject :=
  mkNearEarthObject "2001 XY" none (DiamIn.flt PyFloat.nan) (HazIn.bool false)

/-- The A approach of the §8 scenario: time T1, distance 0.1, velocity 5.0. -/
def caA : CloseApproach :=
  mkCloseApproach "2000 AB" 1 (PyFloat.val (1 / 10)) (PyFloat.val 5)

/-- The B approach of the §8 scenario: time T2, distance 0.2, velocity 6.0. -/
def caB : CloseApproach :=
  mkCloseApproach "2001 XY" 2 (PyFloat.val (1 / 5)) (PyFloat.val 6)

/-- The A approach after the database linked it to NEO A (index 0). -/
def caALinked : CloseApproach :=
  { designation := "2000 AB", time := 1, distance := PyFloat.val (1 / 10),
    velocity := PyFloat.val 5, neo := some 0, name := some "Apophis",
    diameter := PyFloat.val (1 / 2), hazardous := true }

/-- The B approach after the database linked it to NEO B (index 1). -/
def caBLinked : CloseApproach :=
  { designation := "2001 XY", time := 2, distance := PyFloat.val (1 / 5),
    velocity := PyFloat.val 6, neo := some 1, name := none,
    diameter := PyFloat.nan, hazardous := false }

/-- The fully constructed §8 scenario database. -/
def scenarioDB : NEODatabase :=
  { neos := [
      { designation := "2000 AB", name := some "Apophis",
        diameter := PyFloat.val (1 / 2), hazardous := true, approaches := [caALinked] },
      { designation := "2001 XY", name := none,
        diameter := PyFloat.nan, hazardous := false, approaches := [caBLinked] } ],
    approaches := [caALinked, caBLinked],
    neo_des_dic := [("2001 XY", 1), ("2000 AB", 0)],
    neo_nam_dic := [(none, 1), (some "Apophis", 0)] }

/-- First of two NEOs sharing the designation "D" (shadowing example). -/
def dupNeo1 : NearEarthObject :=
  mkNearEarthObject "D" (some "First") (DiamIn.flt (PyFloat.val 1)) (HazIn.bool false)

/-- Second of two NEOs sharing the designation "D" (shadowing example). -/
def dupNeo2 : NearEarthObject :=
  mkNearEarthObject "D" (some "Second") (DiamIn.flt (PyFloat.val 2)) (HazIn.bool true)

/-- A close approach whose designation matches no NEO. -/
def orphanCA : CloseApproach :=
  mkCloseApproach "ZZZ" 0 PyFloat.nan PyFloat.nan

/-- A filter mapping with an unrecognized key next to a recognized one. -/
def bogusFilters : List (String × List FVal) :=
  [("color", [FVal.bool true]), ("hazardous", [FVal.bool true, FVal.none])]

/-- The designation/index pairs of a NEO list, indices starting at `i`; a
specification device for reasoning about `buildDesDicAux`. -/
def desEnum : Nat → List NearEarthObject → List (String × Nat)
  | _, [] => []
  | i, neo :: rest => (neo.designation, i) :: desEnum (i + 1) rest

theorem buildDesDicAux_eq (neos : List NearEarthObject) :
    ∀ (i : Nat) (acc : List (String × Nat)),
    buildDesDicAux i neos acc = (desEnum i neos).reverse ++ acc := by
  induction neos with
  | nil => intro i acc; simp [buildDesDicAux, desEnum]
  | cons neo rest ih =>
    intro i acc
    simp [buildDesDicAux, desEnum, ih, List.append_assoc]

theorem desEnum_concat (x : NearEarthObject) :
    ∀ (l : List NearEarthObject) (i : Nat),
    desEnum i (l ++ [x]) = desEnum i l ++ [(x.designation, i + l.length)] := by
  intro l
  induction l with
  | nil => intro i; simp [desEnum]
  | cons n rest ih =>
    intro i
    have h : i + 1 + rest.length = i + (rest.length + 1) := by omega
    simp only [List.cons_append, desEnum, List.append_eq, ih (i + 1), List.length_cons, h]

theorem buildDesDic_concat (l : List NearEarthObject) (x : NearEarthObject) :
    buildDesDic (l ++ [x]) = (x.designation, l.length) :: buildDesDic l := by
  simp [buildDesDic, buildDesDicAux_eq, desEnum_concat]

theorem dictGet_nil {κ : Type} [DecidableEq κ] (key : κ) :
    dictGet ([] : List (κ × Nat)) key = none := rfl

theorem dictGet_cons {κ : Type} [DecidableEq κ] (k : κ) (v : Nat)
    (dic : List (κ × Nat)) (key : κ) :
    dictGet ((k, v) :: dic) key = if k = key then some v else dictGet dic key := by
  by_cases h : k = key <;> simp [dictGet, List.find?_cons, h]

theorem dictGet_buildDesDic_eq_none (neos : List NearEarthObject) (k : String) :
    dictGet (buildDesDic neos) k = none ↔ ∀ n ∈ neos, n.designation ≠ k := by
  induction neos using List.reverseRecOn with
  | nil => simp [buildDesDic, buildDesDicAux, dictGet]
  | append_singleton l x ih =>
    rw [buildDesDic_concat, dictGet_cons]
    by_cases h : x.designation = k
    · simp only [if_pos h]
      simp only [List.mem_append, List.mem_singleton]
      constructor
      · intro hfalse
        exact absurd hfalse (by simp)
      · intro hall
        exact absurd h (hall x (Or.inr rfl))
    · simp only [if_neg h, ih, List.mem_append, List.mem_singleton]
      constructor
      · rintro hl n (hn | rfl)
        · exact hl n hn
        · exact h
      · intro hall n hn
        exact hall n (Or.inl hn)

theorem dictGet_buildDesDic_some (neos : List NearEarthObject) (k : String) (i : Nat) :
    dictGet (buildDesDic neos) k = some i →
    ∃ n, neos.get? i = some n ∧ n.designation = k := by
  induction neos using List.reverseRecOn with
  | nil => simp [buildDesDic, buildDesDicAux, dictGet]
  | append_singleton l x ih =>
    rw [buildDesDic_concat, dictGet_cons]
    by_cases h : x.designation = k
    · rw [if_pos h]
      intro hsome
      have hi : l.length = i := Option.some.inj hsome
      subst hi
      exact ⟨x, List.get?_concat_length l x, h⟩
    · rw [if_neg h]
      intro hlook
      obtain ⟨n, hn, hd⟩ := ih hlook
      have hlt : i < l.length := by
        rcases List.get?_eq_some.mp hn with ⟨hl, _⟩
        exact hl
      refine ⟨n, ?_, hd⟩
      rw [List.get?_append hlt]
      exact hn

theorem dictGet_buildDesDic_last (neos : List NearEarthObject) (k : String)
    (j : Nat) (n2 : NearEarthObject) :
    neos.get? j = some n2 → n2.designation = k →
    (∀ l, j < l → ∀ m, neos.get? l = some m → m.designation ≠ k) →
    dictGet (buildDesDic neos) k = some j := by
  induction neos using List.reverseRecOn with
  | nil => simp
  | append_singleton l x ih =>
    intro hget hdes hafter
    rw [buildDesDic_concat, dictGet_cons]
    have hjlt : j < l.length + 1 := by
      rcases List.get?_eq_some.mp hget with ⟨hl, _⟩
      simpa using hl
    rcases Nat.lt_succ_iff_lt_or_eq.mp hjlt with hjl | hjeq
    · have hx : x.designation ≠ k := by
        apply hafter l.length hjl x
        exact List.get?_concat_length l x
      rw [if_neg hx]
      apply ih
      · rw [List.get?_append hjl] at hget
        exact hget
      · exact hdes
      · intro t hjt m hm
        have htlt : t < l.length := by
          rcases List.get?_eq_some.mp hm with ⟨hl, _⟩
          exact hl
        apply hafter t hjt m
        rw [List.get?_append htlt]
        exact hm
    · subst hjeq
      have hx : x = n2 := by
        have := List.get?_concat_length l x
        rw [this] at hget
        exact Option.some.inj hget
      subst hx
      rw [if_pos hdes]

theorem buildDesDicAux_map (f : NearEarthObject → NearEarthObject)
    (hf : ∀ n, (f n).designation = n.designation) (neos : List NearEarthObject) :
    ∀ (i : Nat) (acc : List (String × Nat)),
    buildDesDicAux i (neos.map f) acc = buildDesDicAux i neos acc := by
  induction neos with
  | nil => intro i acc; simp [buildDesDicAux]
  | cons neo rest ih =>
    intro i acc
    simp [buildDesDicAux, hf, ih]

theorem buildDesDic_map (f : NearEarthObject → NearEarthObject)
    (hf : ∀ n, (f n).designation = n.designation) (neos : List NearEarthObject) :
    buildDesDic (neos.map f) = buildDesDic neos := by
  simp [buildDesDic, buildDesDicAux_map f hf]

theorem buildNamDicAux_map (f : NearEarthObject → NearEarthObject)
    (hf : ∀ n, (f n).name = n.name) (neos : List NearEarthObject) :
    ∀ (i : Nat) (acc : List (Option String × Nat)),
    buildNamDicAux i (neos.map f) acc = buildNamDicAux i neos acc := by
  induction neos with
  | nil => intro i acc; simp [buildNamDicAux]
  | cons neo rest ih =>
    intro i acc
    simp [buildNamDicAux, hf, ih]

theorem buildNamDic_map (f : NearEarthObject → NearEarthObject)
    (hf : ∀ n, (f n).name = n.name) (neos : List NearEarthObject) :
    buildNamDic (neos.map f) = buildNamDic neos := by
  simp [buildNamDic, buildNamDicAux_map f hf]

theorem mapME_length {α β : Type} (f : α → Except String β) :
    ∀ (l : List α) (ys : List β), mapME f l = Except.ok ys → ys.length = l.length := by
  intro l
  induction l with
  | nil =>
    intro ys h
    simp only [mapME] at h
    injection h with h
    subst h
    rfl
  | cons x xs ih =>
    intro ys h
    simp only [mapME] at h
    cases hf : f x with
    | error e => simp only [hf] at h; exact Except.noConfusion h
    | ok y =>
      simp only [hf] at h
      cases hm : mapME f xs with
      | error e => simp only [hm] at h; exact Except.noConfusion h
      | ok ys0 =>
        simp only [hm] at h
        injection h with h
        subst h
        simp [ih ys0 hm]

theorem mapME_mem {α β : Type} (f : α → Except String β) :
    ∀ (l : List α) (ys : List β), mapME f l = Except.ok ys →
    ∀ y ∈ ys, ∃ x ∈ l, f x = Except.ok y := by
  intro l
  induction l with
  | nil =>
    intro ys h y hy
    simp only [mapME] at h
    injection h with h
    subst h
    simp at hy
  | cons x xs ih =>
    intro ys h y hy
    simp only [mapME] at h
    cases hf : f x with
    | error e => simp only [hf] at h; exact Except.noConfusion h
    | ok y0 =>
      simp only [hf] at h
      cases hm : mapME f xs with
      | error e => simp only [hm] at h; exact Except.noConfusion h
      | ok ys0 =>
        simp only [hm] at h
        injection h with h
        subst h
        rcases List.mem_cons.mp hy with rfl | hmem
        · exact ⟨x, List.mem_cons_self x xs, hf⟩
        · obtain ⟨x1, hx1, hfx1⟩ := ih ys0 hm y hmem
          exact ⟨x1, List.mem_cons_of_mem x hx1, hfx1⟩

theorem mapME_error_of_mem {α β : Type} (f : α → Except String β) :
    ∀ (l : List α) (x : α), x ∈ l → (∀ y, f x ≠ Except.ok y) →
    ∃ e, mapME f l = Except.error e := by
  intro l
  induction l with
  | nil => intro x hx; simp at hx
  | cons z zs ih =>
    intro x hx hbad
    rcases List.mem_cons.mp hx with rfl | hmem
    · cases hf : f x with
      | error e => exact ⟨e, by simp [mapME, hf]⟩
      | ok y => exact absurd hf (hbad y)
    · cases hf : f z with
      | error e => exact ⟨e, by simp [mapME, hf]⟩
      | ok y =>
        obtain ⟨e, he⟩ := ih x hmem hbad
        exact ⟨e, by simp [mapME, hf, he]⟩

theorem mapME_ok_of_all {α β : Type} (f : α → Except String β) :
    ∀ (l : List α), (∀ x ∈ l, ∃ y, f x = Except.ok y) →
    ∃ ys, mapME f l = Except.ok ys := by
  intro l
  induction l with
  | nil => intro h0; exact ⟨[], rfl⟩
  | cons x xs ih =>
    intro hall
    obtain ⟨y, hy⟩ := hall x (List.mem_cons_self x xs)
    obtain ⟨ys, hys⟩ := ih (fun z hz => hall z (List.mem_cons_of_mem x hz))
    exact ⟨y :: ys, by simp [mapME, hy, hys]⟩

theorem mapME_fixed {α : Type} (f : α → Except String α) :
    ∀ (l : List α), (∀ x ∈ l, f x = Except.ok x) → mapME f l = Except.ok l := by
  intro l
  induction l with
  | nil => intro h0; rfl
  | cons x xs ih =>
    intro hall
    have h1 := hall x (List.mem_cons_self x xs)
    have h2 := ih (fun z hz => hall z (List.mem_cons_of_mem x hz))
    simp [mapME, h1, h2]

theorem mapME_map_eq {α β γ : Type} (f : α → Except String β) (g : α → γ) (gβ : β → γ)
    (hfg : ∀ x y, f x = Except.ok y → gβ y = g x) :
    ∀ (l : List α) (ys : List β), mapME f l = Except.ok ys → ys.map gβ = l.map g := by
  intro l
  induction l with
  | nil =>
    intro ys h
    simp only [mapME] at h
    injection h with h
    subst h
    rfl
  | cons x xs ih =>
    intro ys h
    simp only [mapME] at h
    cases hf : f x with
    | error e => simp only [hf] at h; exact Except.noConfusion h
    | ok y =>
      simp only [hf] at h
      cases hm : mapME f xs with
      | error e => simp only [hm] at h; exact Except.noConfusion h
      | ok ys0 =>
        simp only [hm] at h
        injection h with h
        subst h
        simp [hfg x y hf, ih ys0 hm]

theorem linkApproach_ok (neos : List NearEarthObject) (ca ca' : CloseApproach) :
    linkApproach neos (buildDesDic neos) ca = Except.ok ca' →
    ∃ i neo, dictGet (buildDesDic neos) ca.designation = some i ∧
      neos.get? i = some neo ∧ neo.designation = ca.designation ∧
      ca' = { ca with neo := some i, name := neo.name, diameter := neo.diameter,
                      hazardous := neo.hazardous } := by
  intro h
  unfold linkApproach at h
  cases hd : dictGet (buildDesDic neos) ca.designation with
  | none => simp only [hd] at h; exact Except.noConfusion h
  | some i =>
    simp only [hd] at h
    cases hg : neos.get? i with
    | none => simp only [hg] at h; exact Except.noConfusion h
    | some neo =>
      simp only [hg] at h
      injection h with h
      obtain ⟨n, hn, hnd⟩ := dictGet_buildDesDic_some neos ca.designation i hd
      have hne : neo = n := by
        rw [hg] at hn
        exact Option.some.inj hn
      subst hne
      exact ⟨i, neo, rfl, hg, hnd, h.symm⟩

theorem linkApproach_ok_of_covered (neos : List NearEarthObject) (ca : CloseApproach)
    (hcov : ∃ neo ∈ neos, neo.designation = ca.designation) :
    ∃ ca', linkApproach neos (buildDesDic neos) ca = Except.ok ca' := by
  cases hd : dictGet (buildDesDic neos) ca.designation with
  | none =>
    obtain ⟨neo, hm, hdes⟩ := hcov
    exact absurd hdes ((dictGet_buildDesDic_eq_none neos ca.designation).mp hd neo hm)
  | some i =>
    obtain ⟨n, hn, _⟩ := dictGet_buildDesDic_some neos ca.designation i hd
    refine ⟨{ ca with neo := some i, name := n.name, diameter := n.diameter,
                      hazardous := n.hazardous }, ?_⟩
    unfold linkApproach
    simp only [hd, hn]

theorem mkNEODatabase_ok (neos : List NearEarthObject) (cas : List CloseApproach)
    (db : NEODatabase) :
    mkNEODatabase neos cas = Except.ok db →
    ∃ linked, mapME (linkApproach neos (buildDesDic neos)) cas = Except.ok linked ∧
      db = { neos := neos.map (withApproaches linked),
             approaches := linked,
             neo_des_dic := buildDesDic neos,
             neo_nam_dic := buildNamDic neos } := by
  intro h
  unfold mkNEODatabase at h
  cases hm : mapME (linkApproach neos (buildDesDic neos)) cas with
  | error e => simp only [hm] at h; exact Except.noConfusion h
  | ok linked =>
    simp only [hm] at h
    injection h with h
    exact ⟨linked, rfl, h.symm⟩

theorem mkNEODatabase_eq_ok (neos : List NearEarthObject) (cas : List CloseApproach)
    (linked : List CloseApproach)
    (hm : mapME (linkApproach neos (buildDesDic neos)) cas = Except.ok linked) :
    mkNEODatabase neos cas = Except.ok
      { neos := neos.map (withApproaches linked),
        approaches := linked,
        neo_des_dic := buildDesDic neos,
        neo_nam_dic := buildNamDic neos } := by
  unfold mkNEODatabase
  rw [hm]

theorem fget_cons (p : String × List FVal) (rest : List (String × List FVal)) (k : String) :
    fget (p :: rest) k = if p.1 = k then some p.2 else fget rest k := by
  by_cases h : p.1 = k <;> simp [fget, List.find?_cons, h]

theorem restrictFilters_cons (p : String × List FVal) (rest : List (String × List FVal)) :
    restrictFilters (p :: rest) =
    if p.1 ∈ recognizedKeys then p :: restrictFilters rest else restrictFilters rest := by
  by_cases h : p.1 ∈ recognizedKeys <;> simp [restrictFilters, List.filter_cons, h]

theorem fget_restrict (fs : List (String × List FVal)) (k : String)
    (hk : k ∈ recognizedKeys) : fget (restrictFilters fs) k = fget fs k := by
  induction fs with
  | nil => rfl
  | cons p rest ih =>
    rw [restrictFilters_cons]
    by_cases hp : p.1 ∈ recognizedKeys
    · rw [if_pos hp, fget_cons, fget_cons]
      by_cases hpk : p.1 = k
      · rw [if_pos hpk, if_pos hpk]
      · rw [if_neg hpk, if_neg hpk, ih]
    · have hpk : p.1 ≠ k := fun hh => hp (hh ▸ hk)
      rw [if_neg hp, fget_cons, if_neg hpk, ih]

theorem evalKey_fget_congr (fs fs' : List (String × List FVal)) (k : String)
    (f : FVal → FVal → CloseApproach → Bool) (ca : CloseApproach) (acc : List Bool)
    (h : fget fs k = fget fs' k) :
    evalKey fs k f ca acc = evalKey fs' k f ca acc := by
  unfold evalKey
  rw [h]

theorem filterResults_restrict (fs : List (String × List FVal)) (ca : CloseApproach) :
    filterResults (restrictFilters fs) ca = filterResults fs ca := by
  have h1 := fget_restrict fs "date" (by simp [recognizedKeys])
  have h2 := fget_restrict fs "start_date" (by simp [recognizedKeys])
  have h3 := fget_restrict fs "end_date" (by simp [recognizedKeys])
  have h4 := fget_restrict fs "distance_min" (by simp [recognizedKeys])
  have h5 := fget_restrict fs "distance_max" (by simp [recognizedKeys])
  have h6 := fget_restrict fs "velocity_min" (by simp [recognizedKeys])
  have h7 := fget_restrict fs "velocity_max" (by simp [recognizedKeys])
  have h8 := fget_restrict fs "diameter_min" (by simp [recognizedKeys])
  have h9 := fget_restrict fs "diameter_max" (by simp [recognizedKeys])
  have h10 := fget_restrict fs "hazardous" (by simp [recognizedKeys])
  simp only [filterResults, evalKey, h1, h2, h3, h4, h5, h6, h7, h8, h9, h10]

theorem query_restrict (fs : List (String × List FVal)) :
    ∀ (apps : List CloseApproach), query (restrictFilters fs) apps = query fs apps := by
  intro apps
  induction apps with
  | nil => rfl
  | cons ca rest ih => simp only [query, filterResults_restrict, ih]

theorem filterResults_nilFilters (ca : CloseApproach) :
    filterResults [] ca = Except.ok [] := rfl

theorem query_nilFilters : ∀ (apps : List CloseApproach),
    query [] apps = Except.ok apps := by
  intro apps
  induction apps with
  | nil => rfl
  | cons ca rest ih => simp [query, filterResults_nilFilters, ih]

theorem linkApproach_caCore (neos : List NearEarthObject) (ca ca' : CloseApproach)
    (h : linkApproach neos (buildDesDic neos) ca = Except.ok ca') :
    caCore ca' = caCore ca := by
  obtain ⟨i, neo, _, _, _, hc⟩ := linkApproach_ok neos ca ca' h
  subst hc
  rfl

theorem linkApproach_relink (neos : List NearEarthObject) (linked : List CloseApproach)
    (x ca : CloseApproach)
    (h : linkApproach neos (buildDesDic neos) x = Except.ok ca) :
    linkApproach (neos.map (withApproaches linked))
      (buildDesDic (neos.map (withApproaches linked))) ca = Except.ok ca := by
  obtain ⟨i, neo, hd, hg, hdes, hc⟩ := linkApproach_ok neos x ca h
  have hcd : ca.designation = x.designation := by rw [hc]
  have hdict : dictGet (buildDesDic (neos.map (withApproaches linked))) ca.designation
      = some i := by
    rw [buildDesDic_map (withApproaches linked) (fun n => rfl) neos, hcd, hd]
  have hgm : (neos.map (withApproaches linked)).get? i
      = some (withApproaches linked neo) := by
    rw [List.get?_map, hg]
    rfl
  unfold linkApproach
  simp only [hdict, hgm, withApproaches]
  rw [hc]

/-- C1: evaluation of the code at the failing input.  On the §8 scenario
database, whose NEO B is unnamed, `get_neo_by_name(None)` returns NEO B
instead of the not-found sentinel: the guard at `database.py` line 38
(`if neo.name != None or neo.name != ''`) is a tautology, so the unnamed
NEO is inserted into the name index under the `None` key, contradicting the
method's own docstring ("No NEOs are associated with the empty string nor
with the `None` singleton"). -/
theorem C1_code_eval :
    getNeoByName scenarioDB none =
      some { designation := "2001 XY", name := none, diameter := PyFloat.nan,
             hazardous := false, approaches := [caBLinked] } := rfl

/-- C2 counterexample: on the §8 scenario database, query with the
one-element value shape `{hazardous: (true,)}` raises `IndexError` when
consumed (the subscription `filters['hazardous'][1]` at `database.py` line
133 is out of range), so it does not yield the A approach without raising. -/
theorem C2_counterexample :
    (mkNEODatabase [neoA, neoB] [caA, caB]).bind
      (fun db => queryDB db [("hazardous", [FVal.bool true])]) =
    Except.error "IndexError" := rfl

/-- C2 (amended): on the §8 scenario database, query with the two-element
value `{hazardous: (true, None)}` — the shape the uniform two-bound filter
contract requires — yields exactly the close approach belonging to NEO A
(the hazardous one) and nothing else, without raising. -/
theorem C2_thm :
    (mkNEODatabase [neoA, neoB] [caA, caB]).bind
      (fun db => queryDB db [("hazardous", [FVal.bool true, FVal.none])]) =
    Except.ok [caALinked] := rfl

/-- C3: database construction over collections containing at least one close
approach whose designation matches no NEO's designation aborts with an
error rather than completing with a partially-linked database. -/
theorem C3_thm (neos : List NearEarthObject) (cas : List CloseApproach)
    (h : ∃ ca ∈ cas, ∀ neo ∈ neos, neo.designation ≠ ca.designation) :
    exceptIsOk (mkNEODatabase neos cas) = false := by
  obtain ⟨ca, hca, hnomatch⟩ := h
  have hd : dictGet (buildDesDic neos) ca.designation = none :=
    (dictGet_buildDesDic_eq_none neos ca.designation).mpr hnomatch
  have hbad : ∀ y, linkApproach neos (buildDesDic neos) ca ≠ Except.ok y := by
    intro y hy
    unfold linkApproach at hy
    simp only [hd] at hy
    exact Except.noConfusion hy
  obtain ⟨e, he⟩ := mapME_error_of_mem _ cas ca hca hbad
  unfold mkNEODatabase
  rw [he]
  rfl

/-- C3 witness: a database over one NEO and one orphan approach aborts. -/
theorem C3_wit : exceptIsOk (mkNEODatabase [neoA] [orphanCA]) = false :=
  C3_thm [neoA] [orphanCA]
    ⟨orphanCA, by simp, by
      intro neo hneo
      rw [List.mem_singleton.mp hneo]
      decide⟩

/-- C6: querying a constructed database with an empty filter mapping yields
every close approach, in the original input order (the scan order of the
linked collection, whose per-element constructor cores equal the input's),
with output length equal to the input collection's length. -/
theorem C6_thm (neos : List NearEarthObject) (cas : List CloseApproach)
    (db : NEODatabase) (h : mkNEODatabase neos cas = Except.ok db) :
    queryDB db [] = Except.ok db.approaches ∧
    db.approaches.map caCore = cas.map caCore ∧
    db.approaches.length = cas.length := by
  obtain ⟨linked, hm, hdb⟩ := mkNEODatabase_ok neos cas db h
  have happ : db.approaches = linked := by rw [hdb]
  refine ⟨?_, ?_, ?_⟩
  · rw [queryDB, happ]
    exact query_nilFilters linked
  · rw [happ]
    exact mapME_map_eq _ caCore caCore
      (fun x y hy => linkApproach_caCore neos x y hy) cas linked hm
  · rw [happ]
    exact mapME_length _ cas linked hm

/-- C6 witness: the §8 scenario database instantiates the statement. -/
theorem C6_wit :
    queryDB scenarioDB [] = Except.ok scenarioDB.approaches ∧
    scenarioDB.approaches.map caCore = ([caA, caB]).map caCore ∧
    scenarioDB.approaches.length = ([caA, caB]).length :=
  C6_thm [neoA, neoB] [caA, caB] scenarioDB rfl

/-- C7: `NearEarthObject` construction normalizes its inputs: hazard flag
'Y' yields a true hazardous flag, 'N' yields false, an empty-string name
yields a null name, and an empty-string diameter yields the NaN diameter. -/
theorem C7_thm :
    ∀ (des : String) (nm : Option String) (diam : DiamIn) (haz : HazIn),
    (mkNearEarthObject des nm diam (HazIn.str "Y")).hazardous = true ∧
    (mkNearEarthObject des nm diam (HazIn.str "N")).hazardous = false ∧
    (mkNearEarthObject des (some "") diam haz).name = none ∧
    (mkNearEarthObject des nm DiamIn.emptyStr haz).diameter = PyFloat.nan := by
  intro des nm diam haz
  refine ⟨?_, ?_, ?_, ?_⟩ <;> simp [mkNearEarthObject]

/-- C9: query ignores unrecognized filter keys: for every constructed
database and every filter mapping, the query result coincides with the
result for the restriction of the mapping to the ten recognized keys. -/
theorem C9_thm (neos : List NearEarthObject) (cas : List CloseApproach)
    (db : NEODatabase) (fs : List (String × List FVal))
    (_h : mkNEODatabase neos cas = Except.ok db) :
    queryDB db fs = queryDB db (restrictFilters fs) :=
  (query_restrict fs db.approaches).symm

/-- C9 witness: on the §8 scenario database, a mapping with the unrecognized
key "color" next to "hazardous" queries identically to its restriction. -/
theorem C9_wit :
    queryDB scenarioDB bogusFilters = queryDB scenarioDB (restrictFilters bogusFilters) :=
  C9_thm [neoA, neoB] [caA, caB] scenarioDB bogusFilters rfl

/-- C4: in every successfully constructed database, every close approach has
a non-null `neo` reference that resolves in the database's NEO list, its
designation equals that NEO's designation, and its denormalized name,
diameter and hazardous fields equal that NEO's fields. -/
theorem C4_thm (neos : List NearEarthObject) (cas : List CloseApproach)
    (db : NEODatabase) (h : mkNEODatabase neos cas = Except.ok db) :
    db.approaches.all (approachLinkedChk db) = true := by
  obtain ⟨linked, hm, hdb⟩ := mkNEODatabase_ok neos cas db h
  have happ : db.approaches = linked := by rw [hdb]
  have hneos : db.neos = neos.map (withApproaches linked) := by rw [hdb]
  rw [happ, List.all_eq_true]
  intro ca hca
  obtain ⟨x, hx, hlink⟩ := mapME_mem _ cas linked hm ca hca
  obtain ⟨i, neo, hd, hg, hdes, hc⟩ := linkApproach_ok neos x ca hlink
  have hget : db.neos[i]? = some (withApproaches linked neo) := by
    rw [hneos, ← List.get?_eq_getElem?, List.get?_map, hg]
    rfl
  subst hc
  simp [approachLinkedChk, hget, withApproaches, hdes]

/-- C4 witness: the §8 scenario database instantiates the statement. -/
theorem C4_wit : scenarioDB.approaches.all (approachLinkedChk scenarioDB) = true :=
  C4_thm [neoA, neoB] [caA, caB] scenarioDB rfl

/-- C5: for every NEO of a constructed database, its `approaches` field is
exactly the matching-designation filter — every matching approach, no
non-matching approach, order preserved — of the database's approach
collection, whose per-element constructor cores equal the input
collection's in order. -/
theorem C5_thm (neos : List NearEarthObject) (cas : List CloseApproach)
    (db : NEODatabase) (h : mkNEODatabase neos cas = Except.ok db) :
    db.neos.all (fun neo => decide (neo.approaches =
      db.approaches.filter (fun ca => decide (ca.designation = neo.designation)))) = true ∧
    db.approaches.map caCore = cas.map caCore := by
  obtain ⟨linked, hm, hdb⟩ := mkNEODatabase_ok neos cas db h
  have happ : db.approaches = linked := by rw [hdb]
  have hneos : db.neos = neos.map (withApproaches linked) := by rw [hdb]
  constructor
  · rw [happ, hneos, List.all_eq_true]
    intro n hn
    obtain ⟨neo, hneo, rfl⟩ := List.mem_map.mp hn
    simp [withApproaches]
  · rw [happ]
    exact mapME_map_eq _ caCore caCore
      (fun x y hy => linkApproach_caCore neos x y hy) cas linked hm

/-- C5 witness: the §8 scenario database instantiates the statement. -/
theorem C5_wit :
    scenarioDB.neos.all (fun neo => decide (neo.approaches =
      scenarioDB.approaches.filter (fun ca => decide (ca.designation = neo.designation)))) = true ∧
    scenarioDB.approaches.map caCore = ([caA, caB]).map caCore :=
  C5_thm [neoA, neoB] [caA, caB] scenarioDB rfl

/-- C8: when the NEO collection contains two NEOs with the same designation
(at positions i < j, with j the last position carrying that designation) and
every approach designation resolves, construction completes without
signaling and `get_neo_by_designation` returns the NEO occurring later in
input order — the earlier NEO is silently shadowed in the index. -/
theorem C8_thm (neos : List NearEarthObject) (cas : List CloseApproach)
    (i j : Nat) (n1 n2 : NearEarthObject)
    (_hi : neos.get? i = some n1) (hj : neos.get? j = some n2) (_hij : i < j)
    (_hdup : n1.designation = n2.designation)
    (hlast : ∀ k, j < k → ∀ m, neos.get? k = some m → m.designation ≠ n2.designation)
    (hcov : ∀ ca ∈ cas, ∃ neo ∈ neos, neo.designation = ca.designation) :
    ∃ db, mkNEODatabase neos cas = Except.ok db ∧
      ∃ n2', db.neos.get? j = some n2' ∧
        getNeoByDesignation db n2.designation = some n2' ∧
        n2'.designation = n2.designation ∧ n2'.name = n2.name ∧
        n2'.diameter = n2.diameter ∧ n2'.hazardous = n2.hazardous := by
  obtain ⟨linked, hm⟩ := mapME_ok_of_all _ cas
    (fun ca hca => linkApproach_ok_of_covered neos ca (hcov ca hca))
  refine ⟨_, mkNEODatabase_eq_ok neos cas linked hm, ?_⟩
  have hdict : dictGet (buildDesDic neos) n2.designation = some j :=
    dictGet_buildDesDic_last neos n2.designation j n2 hj rfl hlast
  refine ⟨withApproaches linked n2, ?_, ?_, rfl, rfl, rfl, rfl⟩
  · show (neos.map (withApproaches linked)).get? j = some (withApproaches linked n2)
    rw [List.get?_map, hj]
    rfl
  · show (dictGet (buildDesDic neos) n2.designation).bind
        (fun k => (neos.map (withApproaches linked)).get? k) = some (withApproaches linked n2)
    rw [hdict]
    show (neos.map (withApproaches linked)).get? j = some (withApproaches linked n2)
    rw [List.get?_map, hj]
    rfl

/-- C8 witness: two NEOs both designated "D"; construction over them and an
empty approach collection succeeds and lookup returns the second. -/
theorem C8_wit :
    ∃ db, mkNEODatabase [dupNeo1, dupNeo2] [] = Except.ok db ∧
      ∃ n2', db.neos.get? 1 = some n2' ∧
        getNeoByDesignation db dupNeo2.designation = some n2' ∧
        n2'.designation = dupNeo2.designation ∧ n2'.name = dupNeo2.name ∧
        n2'.diameter = dupNeo2.diameter ∧ n2'.hazardous = dupNeo2.hazardous :=
  C8_thm [dupNeo1, dupNeo2] [] 0 1 dupNeo1 dupNeo2 rfl rfl (by decide) rfl
    (by
      intro k hk m hmk
      have hlen : ([dupNeo1, dupNeo2] : List NearEarthObject).length ≤ k := by
        simp only [List.length_cons, List.length_nil]
        omega
      rw [List.get?_eq_none.mpr hlen] at hmk
      exact Option.noConfusion hmk)
    (by intro ca hca; simp at hca)

/-- C10: database construction is idempotent with respect to linking:
constructing a second database over the NEO and approach collections already
linked by a previous construction succeeds and leaves the linked state (and
both indices) identical to the first construction's. -/
theorem C10_thm (neos : List NearEarthObject) (cas : List CloseApproach)
    (db : NEODatabase) (h : mkNEODatabase neos cas = Except.ok db) :
    mkNEODatabase db.neos db.approaches = Except.ok db := by
  obtain ⟨linked, hm, hdb⟩ := mkNEODatabase_ok neos cas db h
  have happ : db.approaches = linked := by rw [hdb]
  have hneos : db.neos = neos.map (withApproaches linked) := by rw [hdb]
  have hfix : ∀ ca ∈ linked,
      linkApproach (neos.map (withApproaches linked))
        (buildDesDic (neos.map (withApproaches linked))) ca = Except.ok ca := by
    intro ca hca
    obtain ⟨x, hx, hlink⟩ := mapME_mem _ cas linked hm ca hca
    exact linkApproach_relink neos linked x ca hlink
  have hm2 := mapME_fixed _ linked hfix
  have hstep := mkNEODatabase_eq_ok (neos.map (withApproaches linked)) linked linked hm2
  rw [hneos, happ, hstep, hdb]
  have hcomp : withApproaches linked ∘ withApproaches linked = withApproaches linked :=
    funext (fun n => rfl)
  rw [List.map_map, hcomp, buildDesDic_map (withApproaches linked) (fun n => rfl) neos,
      buildNamDic_map (withApproaches linked) (fun n => rfl) neos]

/-- C10 witness: reconstructing over the §8 scenario database's linked
collections reproduces the scenario database exactly. -/
theorem C10_wit :
    mkNEODatabase scenarioDB.neos scenarioDB.approaches = Except.ok scenarioDB :=
  C10_thm [neoA, neoB] [caA, caB] scenarioDB rfl

end NeoDb
